import Mathlib

/-!
A verification development for the WealthFlow expense-tracker backend
(`server.py`): a Flask application with a dual-dialect (SQLite/Postgres)
database layer, session-based authentication, a per-user JSON key-value
store, and an AI chat relay.

The development contains:

* an executable model of the JSON values that the application stores
  (Python objects producible by `json.loads`: `dict`, `list`, `str`, `int`,
  `bool`, `None`; floats are outside the model), together with models of
  `json.dumps` (canonical serialization with `ensure_ascii` escaping and
  `", "`/`": "` separators) and `json.loads` (a fuel-indexed scanner
  following the reference scanner of the Python `json` module), and a proof
  that deserialization is a left inverse of serialization;
* a model of the rows, tables and handlers of `server.py`: the `users` and
  `storage_new` tables as lists of rows, the SQL statements the handlers
  issue as list operations, the `DBConnection` scope (commit on normal
  exit, rollback on failure, close in both cases), the `login_required`
  guard, and the `register`, `login`, `get_data`, `set_data`, `remove_data`
  and `chat` handlers;
* theorems checking the behavioural claims made by the specification
  against this model.

The password hash (`werkzeug.security`) and the AI provider are external
collaborators; they enter as function parameters (`hash`, `check`,
`callModel`) of the relevant handlers.
-/

set_option maxRecDepth 4000

/-! Characters and hex digits -/

def hexDigitChar (n : Nat) : Char :=
  if n < 10 then Char.ofNat (48 + n) else Char.ofNat (87 + n)

def uEscape (n : Nat) : List Char :=
  ['\\', 'u', hexDigitChar (n / 4096 % 16), hexDigitChar (n / 256 % 16),
   hexDigitChar (n / 16 % 16), hexDigitChar (n % 16)]

def escapeChar (c : Char) : List Char :=
  if c = '\\' then ['\\', '\\']
  else if c = '"' then ['\\', '"']
  else if c.toNat = 8 then ['\\', 'b']
  else if c.toNat = 9 then ['\\', 't']
  else if c.toNat = 10 then ['\\', 'n']
  else if c.toNat = 12 then ['\\', 'f']
  else if c.toNat = 13 then ['\\', 'r']
  else if c.toNat < 32 then uEscape c.toNat
  else if c.toNat < 127 then [c]
  else if c.toNat < 65536 then uEscape c.toNat
  else uEscape (55296 + (c.toNat - 65536) / 1024) ++ uEscape (56320 + (c.toNat - 65536) % 1024)

def hexVal (c : Char) : Option Nat :=
  if 48 ≤ c.toNat ∧ c.toNat ≤ 57 then some (c.toNat - 48)
  else if 97 ≤ c.toNat ∧ c.toNat ≤ 102 then some (c.toNat - 87)
  else if 65 ≤ c.toNat ∧ c.toNat ≤ 70 then some (c.toNat - 55)
  else none

def hex4 (a b c d : Char) : Option Nat :=
  match hexVal a, hexVal b, hexVal c, hexVal d with
  | some x, some y, some z, some w => some (4096 * x + 256 * y + 16 * z + w)
  | _, _, _, _ => none

def unescChar (c : Char) : Option Char :=
  if c = '"' then some '"'
  else if c = '\\' then some '\\'
  else if c = '/' then some '/'
  else if c = 'b' then some (Char.ofNat 8)
  else if c = 'f' then some (Char.ofNat 12)
  else if c = 'n' then some (Char.ofNat 10)
  else if c = 'r' then some (Char.ofNat 13)
  else if c = 't' then some (Char.ofNat 9)
  else none

def decodeUEscape : List Char → Option (Char × List Char)
  | a :: b :: c :: d :: rest =>
    match hex4 a b c d with
    | none => none
    | some w1 =>
      if 55296 ≤ w1 ∧ w1 ≤ 56319 then
        match rest with
        | '\\' :: 'u' :: a2 :: b2 :: c2 :: d2 :: rest2 =>
          match hex4 a2 b2 c2 d2 with
          | some w2 =>
            if 56320 ≤ w2 ∧ w2 ≤ 57343 then
              some (Char.ofNat (65536 + (w1 - 55296) * 1024 + (w2 - 56320)), rest2)
            else none
          | none => none
        | _ => none
      else if 56320 ≤ w1 ∧ w1 ≤ 57343 then none
      else some (Char.ofNat w1, rest)
  | _ => none

def parseStrAux : Nat → List Char → List Char → Option (List Char × List Char)
  | 0, _, _ => none
  | _ + 1, _, [] => none
  | fuel + 1, acc, c :: rest =>
    if c = '"' then some (acc.reverse, rest)
    else if c = '\\' then
      match rest with
      | [] => none
      | 'u' :: rest1 =>
        match decodeUEscape rest1 with
        | some (u, rest2) => parseStrAux fuel (u :: acc) rest2
        | none => none
      | e :: rest1 =>
        match unescChar e with
        | some u => parseStrAux fuel (u :: acc) rest1
        | none => none
    else if 32 ≤ c.toNat then parseStrAux fuel (c :: acc) rest else none

/-! Decimal integers (Python str(int) and the JSON number scanner, ints only) -/

def digitChar (n : Nat) : Char := Char.ofNat (48 + n)

def natDigitsAux : Nat → Nat → List Char → List Char
  | 0, _, acc => acc
  | fuel + 1, n, acc =>
      if n < 10 then digitChar n :: acc
      else natDigitsAux fuel (n / 10) (digitChar (n % 10) :: acc)

def natDigits (n : Nat) : List Char := natDigitsAux (n + 1) n []

def encInt (i : Int) : List Char :=
  if i < 0 then '-' :: natDigits i.natAbs else natDigits i.natAbs

def parseDigits : Nat → List Char → Nat × List Char
  | acc, [] => (acc, [])
  | acc, c :: rest =>
      if c.isDigit then parseDigits (acc * 10 + (c.toNat - 48)) rest else (acc, c :: rest)

def parseNumCore : List Char → Option (Nat × List Char)
  | [] => none
  | c :: rest =>
    if c = '0' then some (0, rest)
    else if c.isDigit then some (parseDigits (c.toNat - 48) rest)
    else none

def fracHead : List Char → Bool
  | [] => false
  | c :: _ => c = '.' || c = 'e' || c = 'E'

def parseNumber : List Char → Option (Int × List Char)
  | [] => none
  | c :: rest =>
    if c = '-' then
      match parseNumCore rest with
      | some (n, r) => if fracHead r then none else some (-(n : Int), r)
      | none => none
    else
      match parseNumCore (c :: rest) with
      | some (n, r) => if fracHead r then none else some ((n : Int), r)
      | none => none

def digitsVal (acc : Nat) (ds : List Char) : Nat :=
  ds.foldl (fun a c => a * 10 + (c.toNat - 48)) acc

def numBarrier : List Char → Bool
  | [] => true
  | c :: _ => !(c.isDigit || c = '.' || c = 'e' || c = 'E')

/-! JSON values (Python objects producible by json.loads: dict/list/str/int/bool/None).
    Floats are outside the model. -/

inductive JVal where
  | null : JVal
  | bool (b : Bool) : JVal
  | num (n : Int) : JVal
  | str (s : String) : JVal
  | arr (xs : List JVal) : JVal
  | obj (kvs : List (String × JVal)) : JVal

def encStr (s : String) : List Char := '"' :: s.data.flatMap escapeChar ++ ['"']

mutual

def encVal : JVal → List Char
  | .null => "null".data
  | .bool true => "true".data
  | .bool false => "false".data
  | .num i => encInt i
  | .str s => encStr s
  | .arr [] => ['[', ']']
  | .arr (x :: xs) => '[' :: (encVal x ++ encArrTail xs) ++ [']']
  | .obj [] => ['{', '}']
  | .obj ((k, v) :: kvs) => '{' :: (encStr k ++ ':' :: ' ' :: encVal v ++ encObjTail kvs) ++ ['}']

def encArrTail : List JVal → List Char
  | [] => []
  | x :: xs => ',' :: ' ' :: (encVal x ++ encArrTail xs)

def encObjTail : List (String × JVal) → List Char
  | [] => []
  | (k, v) :: kvs => ',' :: ' ' :: (encStr k ++ ':' :: ' ' :: encVal v ++ encObjTail kvs)

end

def dumps (v : JVal) : String := String.mk (encVal v)

mutual

def wfVal : JVal → Bool
  | .null => true
  | .bool _ => true
  | .num _ => true
  | .str _ => true
  | .arr xs => wfArr xs
  | .obj kvs => wfObj kvs

def wfArr : List JVal → Bool
  | [] => true
  | x :: xs => wfVal x && wfArr xs

def wfObj : List (String × JVal) → Bool
  | [] => true
  | (k, v) :: kvs => !(kvs.any (fun p => p.1 == k)) && wfVal v && wfObj kvs

end

mutual

def fuelVal : JVal → Nat
  | .null => 1
  | .bool _ => 1
  | .num _ => 1
  | .str _ => 1
  | .arr xs => 1 + fuelArr xs
  | .obj kvs => 1 + fuelObj kvs

def fuelArr : List JVal → Nat
  | [] => 0
  | x :: xs => 1 + fuelVal x + fuelArr xs

def fuelObj : List (String × JVal) → Nat
  | [] => 0
  | (_, v) :: kvs => 1 + fuelVal v + fuelObj kvs

end

def isJsonWs (c : Char) : Bool := c = ' ' || c = '\t' || c = '\n' || c = '\r'

def skipWs : List Char → List Char
  | [] => []
  | c :: r => if isJsonWs c then skipWs r else c :: r

def dictInsert (acc : List (String × JVal)) (k : String) (v : JVal) :
    List (String × JVal) :=
  if acc.any (fun p => p.1 == k) then acc.map (fun p => if p.1 == k then (k, v) else p)
  else acc ++ [(k, v)]

def parseValF (pe : List Char → Option (List JVal × List Char))
    (pm : List (String × JVal) → List Char → Option (List (String × JVal) × List Char)) :
    List Char → Option (JVal × List Char)
  | [] => none
  | c :: rest =>
    if c = 'n' then
      match rest with
      | 'u' :: 'l' :: 'l' :: r => some (.null, r)
      | _ => none
    else if c = 't' then
      match rest with
      | 'r' :: 'u' :: 'e' :: r => some (.bool true, r)
      | _ => none
    else if c = 'f' then
      match rest with
      | 'a' :: 'l' :: 's' :: 'e' :: r => some (.bool false, r)
      | _ => none
    else if c = '"' then
      match parseStrAux (rest.length + 1) [] rest with
      | some (cs, r) => some (.str (String.mk cs), r)
      | none => none
    else if c = '[' then
      match skipWs rest with
      | ']' :: r => some (.arr [], r)
      | r =>
        match pe r with
        | some (vs, r2) => some (.arr vs, r2)
        | none => none
    else if c = '{' then
      match skipWs rest with
      | '}' :: r => some (.obj [], r)
      | '"' :: r =>
        match pm [] r with
        | some (kvs, r2) => some (.obj kvs, r2)
        | none => none
      | _ => none
    else
      match parseNumber (c :: rest) with
      | some (i, r) => some (.num i, r)
      | none => none

def parseElemsF (pv : List Char → Option (JVal × List Char))
    (pe : List Char → Option (List JVal × List Char)) (s : List Char) :
    Option (List JVal × List Char) :=
  match pv s with
  | none => none
  | some (v, r) =>
    match skipWs r with
    | ']' :: r2 => some ([v], r2)
    | ',' :: r2 =>
      match pe (skipWs r2) with
      | some (vs, r3) => some (v :: vs, r3)
      | none => none
    | _ => none

def parseMembersF (pv : List Char → Option (JVal × List Char))
    (pm : List (String × JVal) → List Char → Option (List (String × JVal) × List Char))
    (acc : List (String × JVal)) (s : List Char) :
    Option (List (String × JVal) × List Char) :=
  match parseStrAux (s.length + 1) [] s with
  | none => none
  | some (kcs, r1) =>
    match skipWs r1 with
    | ':' :: r2 =>
      match pv (skipWs r2) with
      | none => none
      | some (v, r3) =>
        match skipWs r3 with
        | '}' :: r4 => some (dictInsert acc (String.mk kcs) v, r4)
        | ',' :: r4 =>
          match skipWs r4 with
          | '"' :: r5 => pm (dictInsert acc (String.mk kcs) v) r5
          | _ => none
        | _ => none
    | _ => none

mutual

def parseVal : Nat → List Char → Option (JVal × List Char)
  | 0, _ => none
  | fuel + 1, s => parseValF (parseElems fuel) (parseMembers fuel) s

def parseElems : Nat → List Char → Option (List JVal × List Char)
  | 0, _ => none
  | fuel + 1, s => parseElemsF (parseVal fuel) (parseElems fuel) s

def parseMembers : Nat → List (String × JVal) → List Char →
    Option (List (String × JVal) × List Char)
  | 0, _, _ => none
  | fuel + 1, acc, s => parseMembersF (parseVal fuel) (parseMembers fuel) acc s

end

def loads (s : String) : Option JVal :=
  match parseVal (s.data.length + 1) (skipWs s.data) with
  | some (v, rest) =>
    match skipWs rest with
    | [] => some v
    | _ => none
  | none => none

/-! Server model: rows, store, sessions, responses (from src/server.py) -/

structure UserRow where
  id : Nat
  username : String
  password_hash : String
  role : String
  deriving Repr, DecidableEq

structure StorageRow where
  user_id : Nat
  key : String
  value : String
  deriving Repr, DecidableEq

structure Store where
  users : List UserRow
  storage : List StorageRow
  deriving Repr, DecidableEq

structure Session where
  user_id : Nat
  username : String
  deriving Repr, DecidableEq

structure HttpResponse where
  status : Nat
  body : JVal

def jerr (msg : String) : JVal := .obj [("error", .str msg)]

inductive PyErr where
  | uniqueViolation (msg : String)
  | other (msg : String)

def errMsg : PyErr → String
  | .uniqueViolation m => m
  | .other m => m

def hasSubstring : List Char → List Char → Bool
  | [], pat => pat.isEmpty
  | h :: t, pat => pat.isPrefixOf (h :: t) || hasSubstring t pat

def containsSub (s pat : String) : Bool := hasSubstring s.data pat.data

def isDuplicateError (e : PyErr) : Bool :=
  containsSub (errMsg e) "UNIQUE constraint failed" ||
    containsSub (errMsg e) "duplicate key value"

/-! DBConnection.__enter__ / __exit__: commit on normal exit, rollback on a raised
    failure, close in both cases. -/

structure DBConn where
  committed : Store
  closed : Bool

def withDb {α : Type} (s : Store) (op : Store → Except PyErr (Store × α)) :
    DBConn × Except PyErr α :=
  match op s with
  | .ok (s2, a) => (⟨s2, true⟩, .ok a)
  | .error e => (⟨s, true⟩, .error e)

/-! DBConnection.execute: placeholder rewriting (sql.replace for the Postgres
    dialect) and error propagation (the except clause logs and re-raises). -/

def pyReplace (sql : String) : String :=
  String.mk (sql.data.flatMap (fun c => if c = '?' then ['%', 's'] else [c]))

def rewriteSql (isPg : Bool) (sql : String) : String :=
  if isPg then pyReplace sql else sql

def dbExecute {α : Type} (isPg : Bool) (sql : String)
    (run : String → Except PyErr α) : Except PyErr α :=
  run (rewriteSql isPg sql)

/-! SQL statement semantics on the list-of-rows store -/

def usersFindByUsername (users : List UserRow) (u : String) : Option UserRow :=
  users.find? (fun r => r.username == u)

def nextUserId (users : List UserRow) : Nat :=
  (users.map (fun r => r.id)).foldr max 0 + 1

def usersInsert (users : List UserRow) (u hashed : String) :
    Except PyErr (List UserRow) :=
  if users.any (fun r => r.username == u) then
    .error (.uniqueViolation "UNIQUE constraint failed: users.username")
  else
    .ok (users ++ [⟨nextUserId users, u, hashed, "user"⟩])

def storageFind (st : List StorageRow) (uid : Nat) (k : String) : Option StorageRow :=
  st.find? (fun r => r.user_id == uid && r.key == k)

def storageUpsert (st : List StorageRow) (uid : Nat) (k v : String) : List StorageRow :=
  if st.any (fun r => r.user_id == uid && r.key == k) then
    st.map (fun r => if r.user_id == uid && r.key == k then { r with value := v } else r)
  else st ++ [⟨uid, k, v⟩]

def storageDelete (st : List StorageRow) (uid : Nat) (k : String) : List StorageRow :=
  st.filter (fun r => !(r.user_id == uid && r.key == k))

/-! Handlers -/

def falsy : Option String → Bool
  | none => true
  | some s => s.isEmpty

def userJson (user : UserRow) : JVal :=
  .obj [("id", .num user.id), ("username", .str user.username), ("role", .str user.role)]

def registerOp (hash : String → String) (u p : String) (s : Store) :
    Except PyErr (Store × UserRow) := do
  let users2 ← usersInsert s.users u (hash p)
  match usersFindByUsername users2 u with
  | some user => .ok ({ s with users := users2 }, user)
  | none => .error (.other "TypeError")

def register (hash : String → String) (sess : Option Session) (store : Store)
    (username password : Option String) : Option Session × Store × HttpResponse :=
  if falsy username || falsy password then
    (sess, store, ⟨400, jerr "Username and password required"⟩)
  else
    match withDb store (registerOp hash (username.getD "") (password.getD "")) with
    | (conn, .ok user) =>
        (some ⟨user.id, user.username⟩, conn.committed,
          ⟨200, .obj [("status", .str "success"), ("user", userJson user)]⟩)
    | (conn, .error e) =>
        (sess, conn.committed,
          if isDuplicateError e then ⟨400, jerr "Username already exists"⟩
          else ⟨500, jerr "Registration failed"⟩)

def login (check : String → String → Bool) (sess : Option Session) (store : Store)
    (username password : Option String) : Option Session × Store × HttpResponse :=
  let user? := match username with
    | some u => usersFindByUsername store.users u
    | none => none
  match user? with
  | some user =>
      match password with
      | some p =>
          if check user.password_hash p then
            (some ⟨user.id, user.username⟩, store,
              ⟨200, .obj [("status", .str "success"), ("user", userJson user)]⟩)
          else (sess, store, ⟨401, jerr "Invalid username or password"⟩)
      | none => (sess, store, ⟨500, jerr "Internal Server Error"⟩)
  | none => (sess, store, ⟨401, jerr "Invalid username or password"⟩)

def login_required (handler : Session → Store → Store × HttpResponse) :
    Option Session → Store → Option Session × Store × HttpResponse :=
  fun sess store =>
    match sess with
    | none => (none, store, ⟨401, jerr "Authentication required"⟩)
    | some s =>
        let r := handler s store
        (some s, r.1, r.2)

def get_data (key : String) (sess : Session) (store : Store) : Store × HttpResponse :=
  match withDb store (fun s =>
    match storageFind s.storage sess.user_id key with
    | some row =>
        match loads row.value with
        | some v => .ok (s, (⟨200, v⟩ : HttpResponse))
        | none => .error (.other "json.decoder.JSONDecodeError")
    | none => .ok (s, (⟨200, .null⟩ : HttpResponse))) with
  | (conn, .ok resp) => (conn.committed, resp)
  | (conn, .error _) => (conn.committed, ⟨500, jerr "Internal Server Error"⟩)

def set_data (reqKey : Option String) (reqValue : JVal) (sess : Session)
    (store : Store) : Store × HttpResponse :=
  match withDb store (fun s =>
    match reqKey with
    | some k =>
        .ok ({ s with storage := storageUpsert s.storage sess.user_id k (dumps reqValue) }, ())
    | none => .error (.other "NOT NULL constraint failed: storage_new.key")) with
  | (conn, .ok _) => (conn.committed, ⟨200, .obj [("status", .str "success")]⟩)
  | (conn, .error _) => (conn.committed, ⟨500, jerr "Internal Server Error"⟩)

def remove_data (key : String) (sess : Session) (store : Store) : Store × HttpResponse :=
  match withDb store (fun s =>
    .ok ({ s with storage := storageDelete s.storage sess.user_id key }, ())) with
  | (conn, .ok _) => (conn.committed, ⟨200, .obj [("status", .str "success")]⟩)
  | (conn, .error _) => (conn.committed, ⟨500, jerr "Internal Server Error"⟩)

def chat (apiKey : Option String) (callModel : String → String → Except PyErr String)
    (system_context message : String) (_sess : Session) (store : Store) :
    Store × HttpResponse :=
  match apiKey with
  | none => (store, ⟨500, jerr "Gemini API key not configured"⟩)
  | some _ =>
      match callModel system_context message with
      | .ok text => (store, ⟨200, .obj [("response", .str text)]⟩)
      | .error e => (store, ⟨500, jerr (errMsg e)⟩)

def get_data_route (key : String) : Option Session → Store →
    Option Session × Store × HttpResponse :=
  login_required (get_data key)

def set_data_route (reqKey : Option String) (reqValue : JVal) : Option Session → Store →
    Option Session × Store × HttpResponse :=
  login_required (set_data reqKey reqValue)

def remove_data_route (key : String) : Option Session → Store →
    Option Session × Store × HttpResponse :=
  login_required (remove_data key)

def chat_route (apiKey : Option String) (callModel : String → String → Except PyErr String)
    (system_context message : String) : Option Session → Store →
    Option Session × Store × HttpResponse :=
  login_required (chat apiKey callModel system_context message)

/-- Composite primary key (user_id, key): at most one row per (user, key). -/
def storageUnique (st : List StorageRow) : Prop :=
  st.Pairwise (fun a b => ¬(a.user_id = b.user_id ∧ a.key = b.key))

/-! C9: placeholder rewriting -/

def splitOnQ : List Char → List (List Char)
  | [] => [[]]
  | c :: r =>
    match splitOnQ r with
    | s :: ss => if c = '?' then [] :: s :: ss else (c :: s) :: ss
    | [] => [[c]]

def joinPS : List (List Char) → List Char
  | [] => []
  | [s] => s
  | s :: ss => s ++ '%' :: 's' :: joinPS ss

/-! Roundtrip lemmas for the string layer -/

theorem hexVal_hexDigitChar (n : Nat) (h : n < 16) : hexVal (hexDigitChar n) = some n := by
  interval_cases n <;> rfl

theorem hex4_uEscape (n : Nat) (h : n < 65536) :
    hex4 (hexDigitChar (n / 4096 % 16)) (hexDigitChar (n / 256 % 16))
      (hexDigitChar (n / 16 % 16)) (hexDigitChar (n % 16)) = some n := by
  rw [hex4, hexVal_hexDigitChar _ (Nat.mod_lt _ (by omega)),
    hexVal_hexDigitChar _ (Nat.mod_lt _ (by omega)),
    hexVal_hexDigitChar _ (Nat.mod_lt _ (by omega)),
    hexVal_hexDigitChar _ (Nat.mod_lt _ (by omega))]
  have h4 : 4096 * (n / 4096 % 16) + 256 * (n / 256 % 16) + 16 * (n / 16 % 16) + n % 16 = n := by
    omega
  simp [h4]

theorem decodeUEscape_bmp (n : Nat) (rest : List Char)
    (hlow : ¬ (55296 ≤ n ∧ n ≤ 57343)) (hhi : n < 65536) :
    decodeUEscape (uEscape n ++ rest).tail.tail = some (Char.ofNat n, rest) := by
  rw [uEscape]
  simp only [List.cons_append, List.nil_append, List.tail_cons]
  rw [decodeUEscape]
  rw [hex4_uEscape n hhi]
  simp only []
  rw [if_neg (by omega), if_neg (by omega)]

theorem decodeUEscape_pair (n : Nat) (rest : List Char)
    (h1 : 65536 ≤ n) (h2 : n < 1114112) :
    decodeUEscape ((uEscape (55296 + (n - 65536) / 1024) ++
        uEscape (56320 + (n - 65536) % 1024)) ++ rest).tail.tail =
      some (Char.ofNat n, rest) := by
  rw [uEscape, uEscape]
  simp only [List.cons_append, List.nil_append, List.tail_cons]
  rw [decodeUEscape]
  rw [hex4_uEscape _ (show 55296 + (n - 65536) / 1024 < 65536 by omega)]
  simp only []
  rw [if_pos (by omega)]
  simp [hex4_uEscape _ (show 56320 + (n - 65536) % 1024 < 65536 by omega)]
  refine ⟨by omega, ?_⟩
  have h3 : 65536 + (n - 65536) / 1024 * 1024 + (n - 65536) % 1024 = n := by omega
  rw [h3]

theorem parseStrAux_quote (f : Nat) (acc rest : List Char) :
    parseStrAux (f + 1) acc ('"' :: rest) = some (acc.reverse, rest) := by
  rw [parseStrAux.eq_def]
  simp

theorem parseStrAux_plain (f : Nat) (acc rest : List Char) (c : Char)
    (h1 : c ≠ '"') (h2 : c ≠ '\\') (h3 : 32 ≤ c.toNat) :
    parseStrAux (f + 1) acc (c :: rest) = parseStrAux f (c :: acc) rest := by
  rw [parseStrAux.eq_def]
  simp [h1, h2, h3]

theorem parseStrAux_esc (f : Nat) (acc rest : List Char) (e u : Char)
    (h1 : e ≠ 'u') (h2 : unescChar e = some u) :
    parseStrAux (f + 1) acc ('\\' :: e :: rest) = parseStrAux f (u :: acc) rest := by
  rw [parseStrAux.eq_def]
  simp only [reduceIte, Char.reduceEq]
  rw [h2]

theorem parseStrAux_uesc (f : Nat) (acc rest1 rest2 : List Char) (u : Char)
    (h : decodeUEscape rest1 = some (u, rest2)) :
    parseStrAux (f + 1) acc ('\\' :: 'u' :: rest1) = parseStrAux f (u :: acc) rest2 := by
  rw [parseStrAux.eq_def]
  simp [h]

set_option maxHeartbeats 1000000 in
theorem escRound (c : Char) (f : Nat) (acc rest : List Char) :
    parseStrAux (f + 1) acc (escapeChar c ++ rest) = parseStrAux f (c :: acc) rest := by
  have hval := c.valid
  have hofn := Char.ofNat_toNat c
  have hcv : c.toNat = c.val.toNat := rfl
  have hsurr : ¬ (55296 ≤ c.toNat ∧ c.toNat ≤ 57343) := by
    rcases hval with h | h
    · omega
    · rcases h with ⟨ha, hb⟩
      omega
  have hmax : c.toNat < 1114112 := by
    rcases hval with h | h
    · omega
    · rcases h with ⟨ha, hb⟩
      omega
  rw [escapeChar]
  split
  · next h => subst h; exact parseStrAux_esc _ _ _ '\\' '\\' (by decide) (by decide)
  split
  · next h => subst h; exact parseStrAux_esc _ _ _ '"' '"' (by decide) (by decide)
  split
  · next h =>
      rw [List.cons_append, List.cons_append, List.nil_append,
        parseStrAux_esc _ _ _ 'b' (Char.ofNat 8) (by decide) (by decide),
        show Char.ofNat 8 = c from h ▸ hofn]
  split
  · next h =>
      rw [List.cons_append, List.cons_append, List.nil_append,
        parseStrAux_esc _ _ _ 't' (Char.ofNat 9) (by decide) (by decide),
        show Char.ofNat 9 = c from h ▸ hofn]
  split
  · next h =>
      rw [List.cons_append, List.cons_append, List.nil_append,
        parseStrAux_esc _ _ _ 'n' (Char.ofNat 10) (by decide) (by decide),
        show Char.ofNat 10 = c from h ▸ hofn]
  split
  · next h =>
      rw [List.cons_append, List.cons_append, List.nil_append,
        parseStrAux_esc _ _ _ 'f' (Char.ofNat 12) (by decide) (by decide),
        show Char.ofNat 12 = c from h ▸ hofn]
  split
  · next h =>
      rw [List.cons_append, List.cons_append, List.nil_append,
        parseStrAux_esc _ _ _ 'r' (Char.ofNat 13) (by decide) (by decide),
        show Char.ofNat 13 = c from h ▸ hofn]
  split
  · next h =>
      have hu := decodeUEscape_bmp c.toNat rest (by omega) (by omega)
      rw [uEscape] at hu ⊢
      simp only [List.cons_append, List.nil_append, List.tail_cons] at hu ⊢
      rw [parseStrAux_uesc _ _ _ _ _ hu, hofn]
  split
  · next h => exact parseStrAux_plain _ _ _ _ (by assumption) (by assumption) (by omega)
  split
  · next h =>
      have hu := decodeUEscape_bmp c.toNat rest hsurr (by omega)
      rw [uEscape] at hu ⊢
      simp only [List.cons_append, List.nil_append, List.tail_cons] at hu ⊢
      rw [parseStrAux_uesc _ _ _ _ _ hu, hofn]
  · next h =>
      have hu := decodeUEscape_pair c.toNat rest (by omega) hmax
      rw [uEscape, uEscape] at hu ⊢
      simp only [List.cons_append, List.nil_append, List.tail_cons] at hu ⊢
      rw [parseStrAux_uesc _ _ _ _ _ hu, hofn]

theorem strContentRound (cs : List Char) : ∀ (f : Nat) (acc rest : List Char),
    cs.length < f →
    parseStrAux f acc (cs.flatMap escapeChar ++ '"' :: rest) = some (acc.reverse ++ cs, rest) := by
  induction cs with
  | nil =>
      intro f acc rest hf
      match f, hf with
      | f + 1, _ => simp [parseStrAux_quote]
  | cons c cs ih =>
      intro f acc rest hf
      match f, hf with
      | f + 1, hf2 =>
        rw [List.flatMap_cons, List.append_assoc, escRound,
          ih f _ _ (by simp only [List.length_cons] at hf2; omega)]
        simp

theorem natDigitsAux_correct : ∀ (fuel n : Nat) (acc : List Char), n < fuel →
    natDigitsAux fuel n acc = natDigits n ++ acc := by
  intro fuel
  induction fuel using Nat.strong_induction_on with
  | _ fuel ih =>
    intro n acc hn
    cases fuel with
    | zero => omega
    | succ f =>
      rw [natDigitsAux]
      by_cases h : n < 10
      · rw [if_pos h]
        conv_rhs => rw [natDigits, natDigitsAux, if_pos h]
        simp
      · rw [if_neg h, ih f (by omega) (n / 10) _ (by omega)]
        conv_rhs => rw [natDigits, natDigitsAux, if_neg h,
          ih n (by omega) (n / 10) _ (by omega)]
        simp

theorem natDigits_low (n : Nat) (h : n < 10) : natDigits n = [digitChar n] := by
  rw [natDigits, natDigitsAux, if_pos h]

theorem natDigits_high (n : Nat) (h : 10 ≤ n) :
    natDigits n = natDigits (n / 10) ++ [digitChar (n % 10)] := by
  conv_lhs => rw [natDigits, natDigitsAux]
  rw [if_neg (by omega), natDigitsAux_correct n (n / 10) _ (by omega)]

theorem digitChar_isDigit (n : Nat) (h : n < 10) : (digitChar n).isDigit = true := by
  interval_cases n <;> decide

theorem digitChar_toNat (n : Nat) (h : n < 10) : (digitChar n).toNat = 48 + n := by
  interval_cases n <;> decide

theorem natDigits_isDigit : ∀ (n : Nat), ∀ c ∈ natDigits n, c.isDigit = true := by
  intro n
  induction n using Nat.strong_induction_on with
  | _ n ih =>
    by_cases h : n < 10
    · rw [natDigits_low n h]
      intro c hc
      simp at hc
      rw [hc]
      exact digitChar_isDigit n h
    · rw [natDigits_high n (by omega)]
      intro c hc
      rw [List.mem_append] at hc
      rcases hc with hc | hc
      · exact ih (n / 10) (by omega) c hc
      · simp at hc
        rw [hc]
        exact digitChar_isDigit _ (by omega)

theorem natDigits_head_pos : ∀ (n : Nat), 1 ≤ n →
    ∃ d ds, natDigits n = d :: ds ∧ d ≠ '0' := by
  intro n
  induction n using Nat.strong_induction_on with
  | _ n ih =>
    intro h1
    by_cases h : n < 10
    · refine ⟨digitChar n, [], natDigits_low n h, ?_⟩
      interval_cases n <;> decide
    · rcases ih (n / 10) (by omega) (by omega) with ⟨d, ds, hds, hd⟩
      exact ⟨d, ds ++ [digitChar (n % 10)], by rw [natDigits_high n (by omega), hds]; simp, hd⟩

theorem parseDigits_spec : ∀ (ds : List Char) (acc : Nat) (rest : List Char),
    (∀ c ∈ ds, c.isDigit = true) →
    (∀ c, rest.head? = some c → c.isDigit = false) →
    parseDigits acc (ds ++ rest) = (digitsVal acc ds, rest) := by
  intro ds
  induction ds with
  | nil =>
      intro acc rest hds hrest
      match rest with
      | [] => rfl
      | c :: r =>
          simp only [List.nil_append, parseDigits]
          rw [hrest c rfl]
          simp [digitsVal]
  | cons c ds ih =>
      intro acc rest hds hrest
      simp only [List.cons_append, parseDigits]
      rw [hds c (by simp)]
      simp only [if_true, List.append_eq]
      rw [ih _ rest (fun x hx => hds x (by simp [hx])) hrest]
      simp [digitsVal]

theorem digitsVal_natDigits : ∀ (n : Nat) (acc : Nat),
    digitsVal acc (natDigits n) = acc * 10 ^ (natDigits n).length + n := by
  intro n
  induction n using Nat.strong_induction_on with
  | _ n ih =>
    intro acc
    by_cases h : n < 10
    · rw [natDigits_low n h]
      simp [digitsVal, digitChar_toNat n h]
    · rw [natDigits_high n (by omega)]
      simp only [digitsVal, List.foldl_append, List.foldl_cons, List.foldl_nil]
      have := ih (n / 10) (by omega) acc
      simp only [digitsVal] at this
      rw [this, digitChar_toNat _ (by omega)]
      simp only [List.length_append, List.length_cons, List.length_nil]
      have h48 : 48 + n % 10 - 48 = n % 10 := by omega
      rw [h48, pow_succ]
      have hmod : n / 10 * 10 + n % 10 = n := by omega
      calc (acc * 10 ^ (natDigits (n / 10)).length + n / 10) * 10 + n % 10
        = acc * (10 ^ (natDigits (n / 10)).length * 10) + (n / 10 * 10 + n % 10) := by ring
      _ = acc * (10 ^ (natDigits (n / 10)).length * 10) + n := by rw [hmod]

theorem natDigits_cons : ∀ (n : Nat), ∃ d ds, natDigits n = d :: ds ∧ d.isDigit = true ∧
    (1 ≤ n → d ≠ '0') := by
  intro n
  induction n using Nat.strong_induction_on with
  | _ n ih =>
    by_cases h : n < 10
    · refine ⟨digitChar n, [], natDigits_low n h, digitChar_isDigit n h, ?_⟩
      interval_cases n <;> simp <;> decide
    · rcases ih (n / 10) (by omega) with ⟨d, ds, hds, hdig, hd⟩
      exact ⟨d, ds ++ [digitChar (n % 10)],
        by rw [natDigits_high n (by omega), hds]; simp, hdig, fun _ => hd (by omega)⟩

theorem parseNumCore_natDigits (n : Nat) (rest : List Char)
    (hrest : ∀ c, rest.head? = some c → c.isDigit = false) :
    parseNumCore (natDigits n ++ rest) = some (n, rest) := by
  rcases natDigits_cons n with ⟨d, ds, hds, hdig, hd⟩
  have hmem : ∀ c ∈ ds, c.isDigit = true := by
    intro c hc
    exact natDigits_isDigit n c (by rw [hds]; simp [hc])
  by_cases h0 : n = 0
  · subst h0
    rw [show natDigits 0 = ['0'] from rfl]
    rw [List.cons_append, List.nil_append, parseNumCore, if_pos rfl]
  · rw [hds, List.cons_append, parseNumCore, if_neg (hd (by omega)), hdig]
    simp only [if_true]
    rw [parseDigits_spec ds (d.toNat - 48) rest hmem hrest]
    have hv : digitsVal (d.toNat - 48) ds = n := by
      have h1 : digitsVal 0 (natDigits n) = n := by
        rw [digitsVal_natDigits n 0]; omega
      rw [hds] at h1
      simp only [digitsVal, List.foldl_cons] at h1
      simpa [digitsVal] using h1
    rw [hv]

theorem isDigit_ne_dash (c : Char) (h : c.isDigit = true) : c ≠ '-' := by
  intro he
  subst he
  simp at h

theorem numBarrier_digitFree (rest : List Char) (h : numBarrier rest = true) :
    ∀ c, rest.head? = some c → c.isDigit = false := by
  intro c hc
  match rest, hc with
  | c' :: r, hc =>
      simp only [List.head?_cons, Option.some.injEq] at hc
      subst hc
      rw [numBarrier] at h
      simp at h
      exact h.1.1.1

theorem numBarrier_fracHead (rest : List Char) (h : numBarrier rest = true) :
    fracHead rest = false := by
  match rest with
  | [] => rfl
  | c :: r =>
      rw [numBarrier] at h
      rw [fracHead]
      simp at h ⊢
      exact ⟨⟨h.1.1.2, h.1.2⟩, h.2⟩

theorem parseNumber_encInt (i : Int) (rest : List Char) (h : numBarrier rest = true) :
    parseNumber (encInt i ++ rest) = some (i, rest) := by
  rcases natDigits_cons i.natAbs with ⟨d, ds, hds, hdig, _⟩
  rw [encInt]
  split
  · next hneg =>
      rw [List.cons_append, parseNumber, if_pos rfl,
        parseNumCore_natDigits i.natAbs rest (numBarrier_digitFree rest h)]
      simp only [numBarrier_fracHead rest h, Bool.false_eq_true, if_false]
      congr 2
      omega
  · next hpos =>
      rw [hds, List.cons_append, parseNumber, if_neg (isDigit_ne_dash d hdig),
        ← List.cons_append, ← hds,
        parseNumCore_natDigits i.natAbs rest (numBarrier_digitFree rest h)]
      simp only [numBarrier_fracHead rest h, Bool.false_eq_true, if_false]
      congr 2
      omega

theorem parseVal_succ (f : Nat) (s : List Char) :
    parseVal (f + 1) s = parseValF (parseElems f) (parseMembers f) s := by
  rw [parseVal]

theorem parseElems_succ (f : Nat) (s : List Char) :
    parseElems (f + 1) s = parseElemsF (parseVal f) (parseElems f) s := by
  rw [parseElems]

theorem parseMembers_succ (f : Nat) (acc : List (String × JVal)) (s : List Char) :
    parseMembers (f + 1) acc s = parseMembersF (parseVal f) (parseMembers f) acc s := by
  rw [parseMembers]

/-! Support lemmas for the roundtrip -/

theorem escapeChar_length_pos (c : Char) : 1 ≤ (escapeChar c).length := by
  rw [escapeChar]
  repeat' split
  all_goals simp [uEscape]

theorem flatMap_escape_ge (cs : List Char) :
    cs.length ≤ (cs.flatMap escapeChar).length := by
  induction cs with
  | nil => simp
  | cons c cs ih =>
      rw [List.flatMap_cons, List.length_append, List.length_cons]
      have := escapeChar_length_pos c
      omega

theorem string_mk_data (s : String) : String.mk s.data = s := rfl

theorem isDigit_bounds (c : Char) (h : c.isDigit = true) :
    48 ≤ c.toNat ∧ c.toNat ≤ 57 := by
  simp [Char.isDigit] at h
  rcases h with ⟨h1, h2⟩
  constructor
  · exact h1
  · exact h2

theorem fuelVal_pos (v : JVal) : 1 ≤ fuelVal v := by
  cases v <;> simp [fuelVal]

theorem skipWs_cons (c : Char) (r : List Char) (h : isJsonWs c = false) :
    skipWs (c :: r) = c :: r := by
  rw [skipWs, h]
  simp

theorem skipWs_space (r : List Char) : skipWs (' ' :: r) = skipWs r := by
  rw [skipWs]
  simp [isJsonWs]

/-- The first character of any encoded value: a letter from a keyword, a quote,
    a bracket, a brace, a minus sign or a decimal digit. -/
theorem encVal_head (v : JVal) : ∃ c cs, encVal v = c :: cs ∧
    (c = 'n' ∨ c = 't' ∨ c = 'f' ∨ c = '"' ∨ c = '[' ∨ c = '{' ∨ c = '-' ∨ c.isDigit = true) := by
  cases v with
  | null => exact ⟨'n', _, rfl, by simp⟩
  | bool b => cases b with
      | true => exact ⟨'t', _, rfl, by simp⟩
      | false => exact ⟨'f', _, rfl, by simp⟩
  | num i =>
      rcases natDigits_cons i.natAbs with ⟨d, ds, hds, hdig, _⟩
      by_cases h : i < 0
      · refine ⟨'-', natDigits i.natAbs, ?_, by simp⟩
        rw [show encVal (.num i) = encInt i from rfl, encInt, if_pos h]
      · refine ⟨d, ds, ?_, by simp [hdig]⟩
        rw [show encVal (.num i) = encInt i from rfl, encInt, if_neg h, hds]
  | str s => exact ⟨'"', _, rfl, by simp⟩
  | arr xs => cases xs with
      | nil => exact ⟨'[', _, rfl, by simp⟩
      | cons x xs => exact ⟨'[', _, rfl, by simp⟩
  | obj kvs =>
      match kvs with
      | [] => exact ⟨'{', _, rfl, by simp⟩
      | (k, v) :: kvs => exact ⟨'{', _, rfl, by simp⟩

theorem head_not_ws (c : Char)
    (h : c = 'n' ∨ c = 't' ∨ c = 'f' ∨ c = '"' ∨ c = '[' ∨ c = '{' ∨ c = '-' ∨ c.isDigit = true) :
    isJsonWs c = false := by
  rcases h with h | h | h | h | h | h | h | h
  · rw [h]; rfl
  · rw [h]; rfl
  · rw [h]; rfl
  · rw [h]; rfl
  · rw [h]; rfl
  · rw [h]; rfl
  · rw [h]; rfl
  · have hb := isDigit_bounds c h
    have h1 : c ≠ ' ' := by intro he; rw [he] at hb; exact absurd hb (by decide)
    have h2 : c ≠ '\t' := by intro he; rw [he] at hb; exact absurd hb (by decide)
    have h3 : c ≠ '\n' := by intro he; rw [he] at hb; exact absurd hb (by decide)
    have h4 : c ≠ '\r' := by intro he; rw [he] at hb; exact absurd hb (by decide)
    simp [isJsonWs, h1, h2, h3, h4]

theorem head_ne_rbracket (c : Char)
    (h : c = 'n' ∨ c = 't' ∨ c = 'f' ∨ c = '"' ∨ c = '[' ∨ c = '{' ∨ c = '-' ∨ c.isDigit = true) :
    c ≠ ']' := by
  intro he
  subst he
  rcases h with h | h | h | h | h | h | h | h <;> simp_all

/-! Targeted unfolding lemmas for parseVal / parseElems / parseMembers -/

theorem pv_null (f : Nat) (r : List Char) :
    parseVal (f + 1) ('n' :: 'u' :: 'l' :: 'l' :: r) = some (.null, r) := by
  rw [parseVal_succ, parseValF.eq_def]
  simp

theorem pv_true (f : Nat) (r : List Char) :
    parseVal (f + 1) ('t' :: 'r' :: 'u' :: 'e' :: r) = some (.bool true, r) := by
  rw [parseVal_succ, parseValF.eq_def]
  simp

theorem pv_false (f : Nat) (r : List Char) :
    parseVal (f + 1) ('f' :: 'a' :: 'l' :: 's' :: 'e' :: r) = some (.bool false, r) := by
  rw [parseVal_succ, parseValF.eq_def]
  simp

theorem pv_str (f : Nat) (rest r : List Char) (cs : List Char)
    (h : parseStrAux (rest.length + 1) [] rest = some (cs, r)) :
    parseVal (f + 1) ('"' :: rest) = some (.str (String.mk cs), r) := by
  rw [parseVal_succ, parseValF.eq_def]
  simp [h]

theorem pv_arr_empty (f : Nat) (rest r : List Char) (h : skipWs rest = ']' :: r) :
    parseVal (f + 1) ('[' :: rest) = some (.arr [], r) := by
  rw [parseVal_succ, parseValF.eq_def]
  simp [h]

theorem pv_arr_elems (f : Nat) (rest r' r2 : List Char) (c : Char) (vs : List JVal)
    (h1 : skipWs rest = c :: r') (h2 : c ≠ ']')
    (h3 : parseElems f (c :: r') = some (vs, r2)) :
    parseVal (f + 1) ('[' :: rest) = some (.arr vs, r2) := by
  rw [parseVal_succ, parseValF.eq_def]
  simp only [Char.reduceEq, reduceIte, h1]
  split
  · next heq => exact absurd (List.cons.injEq _ _ _ _ ▸ heq) (by simp [h2])
  · rw [h3]

theorem pv_obj_empty (f : Nat) (rest r : List Char) (h : skipWs rest = '}' :: r) :
    parseVal (f + 1) ('{' :: rest) = some (.obj [], r) := by
  rw [parseVal_succ, parseValF.eq_def]
  simp [h]

theorem pv_obj_members (f : Nat) (rest r r2 : List Char) (kvs : List (String × JVal))
    (h1 : skipWs rest = '"' :: r)
    (h2 : parseMembers f [] r = some (kvs, r2)) :
    parseVal (f + 1) ('{' :: rest) = some (.obj kvs, r2) := by
  rw [parseVal_succ, parseValF.eq_def]
  simp [h1, h2]

theorem pv_num (f : Nat) (rest r : List Char) (c : Char) (i : Int)
    (hc : ¬ (c = 'n' ∨ c = 't' ∨ c = 'f' ∨ c = '"' ∨ c = '[' ∨ c = '{'))
    (h : parseNumber (c :: rest) = some (i, r)) :
    parseVal (f + 1) (c :: rest) = some (.num i, r) := by
  rw [parseVal_succ, parseValF.eq_def]
  push_neg at hc
  obtain ⟨h1, h2, h3, h4, h5, h6⟩ := hc
  simp [h1, h2, h3, h4, h5, h6, h]

theorem pe_last (f : Nat) (s r r2 : List Char) (v : JVal)
    (h1 : parseVal f s = some (v, r)) (h2 : skipWs r = ']' :: r2) :
    parseElems (f + 1) s = some ([v], r2) := by
  rw [parseElems_succ, parseElemsF]
  simp [h1, h2]

theorem pe_cons (f : Nat) (s r r2 r3 : List Char) (v : JVal) (vs : List JVal)
    (h1 : parseVal f s = some (v, r)) (h2 : skipWs r = ',' :: r2)
    (h3 : parseElems f (skipWs r2) = some (vs, r3)) :
    parseElems (f + 1) s = some (v :: vs, r3) := by
  rw [parseElems_succ, parseElemsF]
  simp [h1, h2, h3]

theorem pm_last (f : Nat) (acc : List (String × JVal)) (s r1 r2 r3 r4 : List Char)
    (kcs : List Char) (v : JVal)
    (h1 : parseStrAux (s.length + 1) [] s = some (kcs, r1))
    (h2 : skipWs r1 = ':' :: r2)
    (h3 : parseVal f (skipWs r2) = some (v, r3))
    (h4 : skipWs r3 = '}' :: r4) :
    parseMembers (f + 1) acc s = some (dictInsert acc (String.mk kcs) v, r4) := by
  rw [parseMembers_succ, parseMembersF]
  simp [h1, h2, h3, h4]

theorem pm_cons (f : Nat) (acc : List (String × JVal)) (s r1 r2 r3 r4 r5 : List Char)
    (kcs : List Char) (v : JVal)
    (h1 : parseStrAux (s.length + 1) [] s = some (kcs, r1))
    (h2 : skipWs r1 = ':' :: r2)
    (h3 : parseVal f (skipWs r2) = some (v, r3))
    (h4 : skipWs r3 = ',' :: r4)
    (h5 : skipWs r4 = '"' :: r5) :
    parseMembers (f + 1) acc s = parseMembers f (dictInsert acc (String.mk kcs) v) r5 := by
  rw [parseMembers_succ, parseMembersF]
  simp [h1, h2, h3, h4, h5]

theorem dictInsert_append (acc : List (String × JVal)) (k : String) (v : JVal)
    (h : acc.any (fun p => p.1 == k) = false) :
    dictInsert acc k v = acc ++ [(k, v)] := by
  rw [dictInsert, h]
  simp

theorem numBarrier_rb (r : List Char) : numBarrier (']' :: r) = true := rfl

theorem numBarrier_cm (r : List Char) : numBarrier (',' :: r) = true := rfl

theorem numBarrier_rc (r : List Char) : numBarrier ('}' :: r) = true := rfl

theorem parseRound : ∀ fuel : Nat,
    (∀ (v : JVal) (rest : List Char), fuelVal v ≤ fuel → wfVal v = true →
      numBarrier rest = true →
      parseVal fuel (encVal v ++ rest) = some (v, rest)) ∧
    (∀ (x : JVal) (xs : List JVal) (rest : List Char), fuelArr (x :: xs) ≤ fuel →
      wfArr (x :: xs) = true →
      parseElems fuel (encVal x ++ (encArrTail xs ++ ']' :: rest)) = some (x :: xs, rest)) ∧
    (∀ (acc : List (String × JVal)) (k : String) (v : JVal) (kvs : List (String × JVal))
      (rest : List Char), fuelObj ((k, v) :: kvs) ≤ fuel →
      wfObj ((k, v) :: kvs) = true →
      (∀ p ∈ (k, v) :: kvs, acc.any (fun q => q.1 == p.1) = false) →
      parseMembers fuel acc
        (k.data.flatMap escapeChar ++
          '"' :: ':' :: ' ' :: (encVal v ++ (encObjTail kvs ++ '}' :: rest))) =
        some (acc ++ (k, v) :: kvs, rest)) := by
  intro fuel
  induction fuel with
  | zero =>
      refine ⟨?_, ?_, ?_⟩
      · intro v rest hf _ _
        have := fuelVal_pos v
        omega
      · intro x xs rest hf _
        rw [fuelArr] at hf
        omega
      · intro acc k v kvs rest hf _ _
        rw [fuelObj] at hf
        omega
  | succ f ih =>
      obtain ⟨ihv, ihe, ihm⟩ := ih
      refine ⟨?_, ?_, ?_⟩
      · -- single value
        intro v rest hf hwf hbar
        cases v with
        | null => exact pv_null f rest
        | bool b =>
            cases b with
            | true => exact pv_true f rest
            | false => exact pv_false f rest
        | num i =>
            rw [show encVal (.num i) = encInt i from rfl]
            have hr := parseNumber_encInt i rest hbar
            rw [encInt] at hr ⊢
            rcases natDigits_cons i.natAbs with ⟨d, ds, hds, hdig, _⟩
            by_cases hneg : i < 0
            · rw [if_pos hneg] at hr ⊢
              rw [List.cons_append] at hr ⊢
              exact pv_num f _ rest '-' i (by decide) hr
            · rw [if_neg hneg] at hr ⊢
              rw [hds, List.cons_append] at hr ⊢
              refine pv_num f _ rest d i ?_ hr
              have hb := isDigit_bounds d hdig
              intro hc
              rcases hc with h | h | h | h | h | h <;> (subst h; revert hb; decide)
        | str s =>
            rw [show encVal (.str s) = encStr s from rfl, encStr]
            simp only [List.append_assoc, List.cons_append, List.singleton_append, List.nil_append]
            have hlen : s.data.length < (s.data.flatMap escapeChar ++ '"' :: rest).length + 1 := by
              have := flatMap_escape_ge s.data
              rw [List.length_append]
              omega
            have h := strContentRound s.data _ [] rest hlen
            rw [List.reverse_nil, List.nil_append] at h
            rw [pv_str f _ rest s.data h, string_mk_data]
        | arr xs =>
            cases xs with
            | nil =>
                exact pv_arr_empty f (']' :: rest) rest (skipWs_cons ']' rest rfl)
            | cons x xs =>
                rw [show encVal (.arr (x :: xs)) =
                  '[' :: (encVal x ++ encArrTail xs) ++ [']'] from rfl]
                simp only [List.append_assoc, List.cons_append, List.singleton_append, List.nil_append]
                rcases encVal_head x with ⟨c, cs, hcs, hhead⟩
                have harr := ihe x xs rest
                  (by simp only [fuelVal] at hf; omega)
                  (by simp only [wfVal] at hwf; exact hwf)
                rw [hcs, List.cons_append] at harr
                refine pv_arr_elems f _ _ rest c (x :: xs) ?_ (head_ne_rbracket c hhead) harr
                rw [hcs, List.cons_append, skipWs_cons c _ (head_not_ws c hhead)]
        | obj kvs =>
            match kvs with
            | [] =>
                exact pv_obj_empty f ('}' :: rest) rest (skipWs_cons '}' rest rfl)
            | (k, v) :: kvs =>
                rw [show encVal (.obj ((k, v) :: kvs)) =
                  '{' :: (encStr k ++ ':' :: ' ' :: encVal v ++ encObjTail kvs) ++ ['}']
                  from rfl, encStr]
                simp only [List.append_assoc, List.cons_append, List.singleton_append, List.nil_append]
                have hm := ihm [] k v kvs rest
                  (by simp only [fuelVal] at hf; omega)
                  (by simp only [wfVal] at hwf; exact hwf)
                  (by intro p _; rfl)
                rw [List.nil_append] at hm
                exact pv_obj_members f _ _ rest ((k, v) :: kvs)
                  (skipWs_cons '"' _ rfl) hm
      · -- array elements
        intro x xs rest hf hwf
        have hone := fuelVal_pos x
        have hv := ihv x (encArrTail xs ++ ']' :: rest)
          (by rw [fuelArr] at hf; omega)
          (by rw [wfArr] at hwf; exact (Bool.and_eq_true_iff.mp hwf).1)
          (by cases xs with
              | nil => exact numBarrier_rb rest
              | cons y ys => exact numBarrier_cm _)
        cases xs with
        | nil =>
            rw [show encArrTail [] = ([] : List Char) from rfl] at hv ⊢
            rw [List.nil_append] at hv ⊢
            exact pe_last f _ _ rest x hv (skipWs_cons ']' rest rfl)
        | cons y ys =>
            rw [show encArrTail (y :: ys) = ',' :: ' ' :: (encVal y ++ encArrTail ys)
              from rfl] at hv ⊢
            simp only [List.append_assoc, List.cons_append, List.singleton_append,
              List.nil_append] at hv ⊢
            rcases encVal_head y with ⟨c, cs, hcs, hhead⟩
            have harr := ihe y ys rest
              (by rw [fuelArr] at hf ⊢; rw [fuelArr] at hf; omega)
              (by rw [wfArr] at hwf ⊢; exact (Bool.and_eq_true_iff.mp hwf).2)
            refine pe_cons f _ _ (' ' :: (encVal y ++ (encArrTail ys ++ ']' :: rest)))
              rest x (y :: ys) hv (skipWs_cons ',' _ rfl) ?_
            rw [skipWs_space, hcs, List.cons_append,
              skipWs_cons c _ (head_not_ws c hhead), ← List.cons_append, ← hcs]
            exact harr
      · -- object members
        intro acc k v kvs rest hf hwf hdisj
        have hone := fuelVal_pos v
        obtain ⟨hknotin, hwfv, hwfkvs⟩ : (kvs.any (fun p => p.1 == k)) = false ∧
            wfVal v = true ∧ wfObj kvs = true := by
          rw [wfObj] at hwf
          simp only [Bool.and_eq_true, Bool.not_eq_true'] at hwf
          exact ⟨hwf.1.1, hwf.1.2, hwf.2⟩
        have hlen : k.data.length <
            (k.data.flatMap escapeChar ++
              '"' :: ':' :: ' ' :: (encVal v ++ (encObjTail kvs ++ '}' :: rest))).length + 1 := by
          have := flatMap_escape_ge k.data
          rw [List.length_append]
          omega
        have hstr := strContentRound k.data _ []
          (':' :: ' ' :: (encVal v ++ (encObjTail kvs ++ '}' :: rest))) hlen
        rw [List.reverse_nil, List.nil_append] at hstr
        have hv := ihv v (encObjTail kvs ++ '}' :: rest)
          (by rw [fuelObj] at hf; omega)
          hwfv
          (by cases kvs with
              | nil => exact numBarrier_rc rest
              | cons p ps =>
                  rcases p with ⟨k2, v2⟩
                  rw [show encObjTail ((k2, v2) :: ps) =
                    ',' :: ' ' :: (encStr k2 ++ ':' :: ' ' :: encVal v2 ++ encObjTail ps)
                    from rfl]
                  exact numBarrier_cm _)
        have hins : dictInsert acc k v = acc ++ [(k, v)] :=
          dictInsert_append acc k v (hdisj (k, v) (by simp))
        cases kvs with
        | nil =>
            rw [show encObjTail [] = ([] : List Char) from rfl] at hv hstr ⊢
            rw [List.nil_append] at hv hstr ⊢
            have := pm_last f acc _ _ _ _ rest k.data v hstr
              (skipWs_cons ':' _ rfl)
              (by rw [skipWs_space]
                  rcases encVal_head v with ⟨c, cs, hcs, hhead⟩
                  rw [hcs, List.cons_append, skipWs_cons c _ (head_not_ws c hhead),
                    ← List.cons_append, ← hcs]
                  exact hv)
              (skipWs_cons '}' rest rfl)
            rw [this, string_mk_data, hins]
        | cons p ps =>
            rcases p with ⟨k2, v2⟩
            rw [show encObjTail ((k2, v2) :: ps) =
              ',' :: ' ' :: (encStr k2 ++ ':' :: ' ' :: encVal v2 ++ encObjTail ps)
              from rfl] at hv hstr ⊢
            rw [encStr] at hv hstr ⊢
            simp only [List.append_assoc, List.cons_append, List.singleton_append,
              List.nil_append] at hv hstr ⊢
            have hnext := ihm (acc ++ [(k, v)]) k2 v2 ps rest
              (by rw [fuelObj] at hf; rw [fuelObj] at hf ⊢; omega)
              hwfkvs
              (by intro p hp
                  rw [List.any_append]
                  have h1 : acc.any (fun q => q.1 == p.1) = false :=
                    hdisj p (by simp [hp])
                  have h2 : (p.1 == k) = false := by
                    have := List.any_eq_false.mp hknotin p hp
                    simpa using this
                  have h2s : (k == p.1) = false := by
                    rcases Bool.eq_false_iff.mp h2 with _
                    rw [Bool.eq_false_iff]
                    intro hkk
                    rw [beq_iff_eq] at hkk
                    rw [hkk] at h2
                    simp at h2
                  rw [h1]
                  simp only [List.any_cons, List.any_nil]
                  rw [h2s]
                  rfl)
            have := pm_cons f acc _ _ _ _ _ _ k.data v hstr
              (skipWs_cons ':' _ rfl)
              (by rw [skipWs_space]
                  rcases encVal_head v with ⟨c, cs, hcs, hhead⟩
                  rw [hcs, List.cons_append, skipWs_cons c _ (head_not_ws c hhead),
                    ← List.cons_append, ← hcs]
                  exact hv)
              (skipWs_cons ',' _ rfl)
              (by rw [skipWs_space]; exact skipWs_cons '"' _ rfl)
            rw [this, string_mk_data, hins, hnext]
            simp

mutual

theorem fuelVal_le : (v : JVal) → fuelVal v ≤ (encVal v).length
  | .null => by simp [fuelVal, encVal]
  | .bool b => by cases b <;> simp [fuelVal, encVal]
  | .num i => by
      rcases natDigits_cons i.natAbs with ⟨d, ds, hds, _, _⟩
      rw [show encVal (.num i) = encInt i from rfl, fuelVal, encInt]
      split <;> rw [hds] <;> simp
  | .str s => by
      rw [show encVal (.str s) = encStr s from rfl, fuelVal, encStr]
      simp
  | .arr [] => by simp [fuelVal, fuelArr, encVal]
  | .arr (x :: xs) => by
      have h1 := fuelVal_le x
      have h2 := fuelArr_le xs
      rw [show encVal (.arr (x :: xs)) = '[' :: (encVal x ++ encArrTail xs) ++ [']']
        from rfl, fuelVal, fuelArr]
      simp only [List.length_append, List.length_cons, List.length_nil]
      omega
  | .obj [] => by simp [fuelVal, fuelObj, encVal]
  | .obj ((k, v) :: kvs) => by
      have h1 := fuelVal_le v
      have h2 := fuelObj_le kvs
      rw [show encVal (.obj ((k, v) :: kvs)) =
        '{' :: (encStr k ++ ':' :: ' ' :: encVal v ++ encObjTail kvs) ++ ['}'] from rfl,
        fuelVal, fuelObj]
      simp only [List.length_append, List.length_cons, List.length_nil]
      omega

theorem fuelArr_le : (xs : List JVal) → fuelArr xs ≤ (encArrTail xs).length
  | [] => by simp [fuelArr, encArrTail]
  | x :: xs => by
      have h1 := fuelVal_le x
      have h2 := fuelArr_le xs
      rw [fuelArr, show encArrTail (x :: xs) = ',' :: ' ' :: (encVal x ++ encArrTail xs)
        from rfl]
      simp only [List.length_append, List.length_cons]
      omega

theorem fuelObj_le : (kvs : List (String × JVal)) → fuelObj kvs ≤ (encObjTail kvs).length
  | [] => by simp [fuelObj, encObjTail]
  | (k, v) :: kvs => by
      have h1 := fuelVal_le v
      have h2 := fuelObj_le kvs
      rw [fuelObj, show encObjTail ((k, v) :: kvs) =
        ',' :: ' ' :: (encStr k ++ ':' :: ' ' :: encVal v ++ encObjTail kvs) from rfl, encStr]
      simp only [List.length_append, List.length_cons, List.length_nil]
      omega

end

/-- Deserialization is a left inverse of serialization for well-formed JSON values
    (objects with duplicate keys excluded; the serializer cannot produce them from
    a Python dict). -/
theorem loads_dumps (v : JVal) (hwf : wfVal v = true) : loads (dumps v) = some v := by
  rw [loads, dumps]
  have hdata : (String.mk (encVal v)).data = encVal v := rfl
  rw [hdata]
  rcases encVal_head v with ⟨c, cs, hcs, hhead⟩
  have hskip : skipWs (encVal v) = encVal v := by
    rw [hcs]
    exact skipWs_cons c cs (head_not_ws c hhead)
  rw [hskip]
  have hfuel : fuelVal v ≤ (encVal v).length + 1 := by
    have := fuelVal_le v
    omega
  have h := (parseRound ((encVal v).length + 1)).1 v [] hfuel hwf rfl
  rw [List.append_nil] at h
  rw [h]
  rfl

/-! Storage lemmas -/

theorem storageRow_eq (r : StorageRow) (uid : Nat) (k : String)
    (h : (r.user_id == uid && r.key == k) = true) (txt : String) :
    { r with value := txt } = (⟨uid, k, txt⟩ : StorageRow) := by
  cases r
  simp only [Bool.and_eq_true, beq_iff_eq] at h
  simp [h.1, h.2]

theorem find?_map_if {α : Type} (p : α → Bool) (c : α) (hc : p c = true) :
    ∀ l : List α, l.any p = true →
      (l.map (fun r => if p r then c else r)).find? p = some c := by
  intro l
  induction l with
  | nil => simp
  | cons r rs ih =>
      intro hany
      rw [List.map_cons, List.find?_cons]
      by_cases hr : p r = true
      · simp only [hr, if_true, hc]
      · simp only [Bool.not_eq_true] at hr
        simp only [hr, Bool.false_eq_true, if_false]
        rw [List.any_cons, hr, Bool.false_or] at hany
        exact ih hany

theorem find?_append_one {α : Type} (p : α → Bool) (c : α) (hc : p c = true) :
    ∀ l : List α, l.any p = false → (l ++ [c]).find? p = some c := by
  intro l
  induction l with
  | nil => simp [List.find?_cons, hc]
  | cons r rs ih =>
      intro hany
      rw [List.any_cons, Bool.or_eq_false_iff] at hany
      rw [List.cons_append, List.find?_cons, hany.1]
      simp only [Bool.false_eq_true, if_false]
      exact ih hany.2

theorem storageFind_upsert (st : List StorageRow) (uid : Nat) (k txt : String) :
    storageFind (storageUpsert st uid k txt) uid k = some ⟨uid, k, txt⟩ := by
  have hc : ((⟨uid, k, txt⟩ : StorageRow).user_id == uid &&
      (⟨uid, k, txt⟩ : StorageRow).key == k) = true := by simp
  rw [storageUpsert, storageFind]
  split
  · next hany =>
      have hmap : st.map (fun r => if (r.user_id == uid && r.key == k) = true
          then { r with value := txt } else r) =
          st.map (fun r => if (r.user_id == uid && r.key == k) = true
          then (⟨uid, k, txt⟩ : StorageRow) else r) := by
        apply List.map_congr_left
        intro r _
        by_cases hr : (r.user_id == uid && r.key == k) = true
        · rw [if_pos hr, if_pos hr, storageRow_eq r uid k hr txt]
        · rw [if_neg hr, if_neg hr]
      rw [hmap]
      exact find?_map_if (fun r => r.user_id == uid && r.key == k) ⟨uid, k, txt⟩ hc st hany
  · next hany =>
      exact find?_append_one (fun r => r.user_id == uid && r.key == k) ⟨uid, k, txt⟩ hc st
        (by rwa [Bool.not_eq_true] at hany)

/-- C1: for every userId, key and (well-formed, float-free) JSON value, `set`
(POST /api/storage) followed by `get` (GET /api/storage/key) in the same session
returns a value deep-equal to the value that was set: deserialization of the
stored canonical JSON text is a left inverse of serialization. Objects with
duplicate keys are excluded by `wfVal`; a Python dict cannot produce them. -/
theorem set_then_get_roundtrip (uid : Nat) (uname k : String) (v : JVal) (store : Store)
    (hwf : wfVal v = true) :
    ∃ store1,
      set_data_route (some k) v (some ⟨uid, uname⟩) store =
        (some ⟨uid, uname⟩, store1, ⟨200, .obj [("status", .str "success")]⟩) ∧
      get_data_route k (some ⟨uid, uname⟩) store1 =
        (some ⟨uid, uname⟩, store1, ⟨200, v⟩) := by
  refine ⟨{ store with storage := storageUpsert store.storage uid k (dumps v) }, ?_, ?_⟩
  · rw [set_data_route, login_required]
    simp only [set_data, withDb]
  · rw [get_data_route, login_required]
    simp only [get_data, withDb, storageFind_upsert, loads_dumps v hwf]

/-! C2 support: uniqueness invariant and row count -/

theorem storageUnique_upsert (st : List StorageRow) (uid : Nat) (k txt : String)
    (h : storageUnique st) : storageUnique (storageUpsert st uid k txt) := by
  rw [storageUpsert]
  split
  · next hany =>
      rw [storageUnique, List.pairwise_map]
      apply List.Pairwise.imp ?_ h
      intro a b hab
      by_cases ha : (a.user_id == uid && a.key == k) = true <;>
        by_cases hb : (b.user_id == uid && b.key == k) = true <;>
        simp only [ha, hb, if_true, if_false, Bool.false_eq_true] <;>
        simpa using hab
  · next hany =>
      rw [storageUnique, List.pairwise_append]
      refine ⟨h, List.pairwise_singleton _ _, ?_⟩
      intro a ha b hb
      simp only [List.mem_singleton] at hb
      subst hb
      have hfa := List.any_eq_false.mp (by rwa [Bool.not_eq_true] at hany) a ha
      simp only [Bool.and_eq_true, beq_iff_eq, not_and] at hfa
      simpa using fun h1 h2 => hfa h1 h2

theorem storageUnique_delete (st : List StorageRow) (uid : Nat) (k : String)
    (h : storageUnique st) : storageUnique (storageDelete st uid k) :=
  List.Pairwise.sublist (List.filter_sublist st) h

theorem filter_unique_one (st : List StorageRow) (uid : Nat) (k : String)
    (h : storageUnique st)
    (hany : st.any (fun r => r.user_id == uid && r.key == k) = true) :
    (st.filter (fun r => r.user_id == uid && r.key == k)).length = 1 := by
  induction st with
  | nil => simp at hany
  | cons r rs ih =>
      rw [storageUnique, List.pairwise_cons] at h
      rw [List.filter_cons]
      by_cases hr : (r.user_id == uid && r.key == k) = true
      · rw [if_pos hr]
        have hnil : rs.filter (fun r => r.user_id == uid && r.key == k) = [] := by
          rw [List.filter_eq_nil_iff]
          intro b hb
          have hp := h.1 b hb
          simp only [Bool.and_eq_true, beq_iff_eq] at hr ⊢
          intro hcon
          exact hp ⟨by rw [hr.1, hcon.1], by rw [hr.2, hcon.2]⟩
        rw [hnil]
        rfl
      · rw [Bool.not_eq_true] at hr
        rw [hr]
        simp only [Bool.false_eq_true, if_false]
        rw [List.any_cons, hr, Bool.false_or] at hany
        exact ih h.2 hany

theorem upsert_count_one (st : List StorageRow) (uid : Nat) (k txt : String)
    (h : storageUnique st) :
    ((storageUpsert st uid k txt).filter
      (fun r => r.user_id == uid && r.key == k)).length = 1 := by
  have hyes : ((⟨uid, k, txt⟩ : StorageRow).user_id == uid &&
      (⟨uid, k, txt⟩ : StorageRow).key == k) = true := by simp
  rw [storageUpsert]
  split
  · next hany =>
      rw [List.filter_map]
      rw [List.length_map]
      have hcong : List.filter ((fun r => r.user_id == uid && r.key == k) ∘
          (fun r => if (r.user_id == uid && r.key == k) = true
            then { r with value := txt } else r)) st =
          List.filter (fun r => r.user_id == uid && r.key == k) st := by
        apply List.filter_congr
        intro r _
        by_cases hr : (r.user_id == uid && r.key == k) = true
        · simp only [Function.comp_apply, hr, if_true]
        · rw [Bool.not_eq_true] at hr
          simp only [Function.comp_apply, hr, Bool.false_eq_true, if_false]
      rw [hcong]
      exact filter_unique_one st uid k h hany
  · next hany =>
      rw [List.filter_append]
      have h1 : List.filter (fun r => r.user_id == uid && r.key == k) st = [] := by
        rw [List.filter_eq_nil_iff]
        intro b hb
        have := List.any_eq_false.mp (by rwa [Bool.not_eq_true] at hany) b hb
        simpa using this
      rw [h1, List.nil_append, List.filter_cons, if_pos hyes]
      rfl

/-- C2: `set(uid,k,v1)` then `set(uid,k,v2)` leaves exactly one storage row for
(uid,k); the at-most-one-row-per-(user,key) invariant is preserved by every
operation (both sets, get, and delete with any key); and a subsequent `get`
returns v2 (last write wins). -/
theorem last_write_wins (uid : Nat) (uname k : String) (v1 v2 : JVal) (store : Store)
    (hwf2 : wfVal v2 = true) (hinv : storageUnique store.storage) :
    ∃ store1 store2,
      set_data_route (some k) v1 (some ⟨uid, uname⟩) store =
        (some ⟨uid, uname⟩, store1, ⟨200, .obj [("status", .str "success")]⟩) ∧
      set_data_route (some k) v2 (some ⟨uid, uname⟩) store1 =
        (some ⟨uid, uname⟩, store2, ⟨200, .obj [("status", .str "success")]⟩) ∧
      storageUnique store1.storage ∧
      storageUnique store2.storage ∧
      (store2.storage.filter (fun r => r.user_id == uid && r.key == k)).length = 1 ∧
      get_data_route k (some ⟨uid, uname⟩) store2 =
        (some ⟨uid, uname⟩, store2, ⟨200, v2⟩) ∧
      (∀ k2, storageUnique
        ((remove_data_route k2 (some ⟨uid, uname⟩) store2).2.1).storage) := by
  refine ⟨{ store with storage := storageUpsert store.storage uid k (dumps v1) },
    { store with
      storage := storageUpsert (storageUpsert store.storage uid k (dumps v1)) uid k (dumps v2) },
    ?_, ?_, ?_, ?_, ?_, ?_, ?_⟩
  · rw [set_data_route, login_required]
    simp only [set_data, withDb]
  · rw [set_data_route, login_required]
    simp only [set_data, withDb]
  · exact storageUnique_upsert _ _ _ _ hinv
  · exact storageUnique_upsert _ _ _ _ (storageUnique_upsert _ _ _ _ hinv)
  · exact upsert_count_one _ _ _ _ (storageUnique_upsert _ _ _ _ hinv)
  · rw [get_data_route, login_required]
    simp only [get_data, withDb, storageFind_upsert, loads_dumps v2 hwf2]
  · intro k2
    rw [remove_data_route, login_required]
    simp only [remove_data, withDb]
    exact storageUnique_delete _ _ _
      (storageUnique_upsert _ _ _ _ (storageUnique_upsert _ _ _ _ hinv))

/-! C3 / C5 support -/

theorem usersFind_append (users : List UserRow) (u : String) (row : UserRow)
    (hany : users.any (fun r => r.username == u) = false)
    (hrow : row.username = u) :
    usersFindByUsername (users ++ [row]) u = some row := by
  rw [usersFindByUsername]
  exact find?_append_one (fun r => r.username == u) row (by simp [hrow]) users hany

theorem register_fresh (hash : String → String) (sess0 : Option Session) (store : Store)
    (u p : String) (hu : u.isEmpty = false) (hp : p.isEmpty = false)
    (hfresh : store.users.any (fun r => r.username == u) = false) :
    register hash sess0 store (some u) (some p) =
      (some ⟨nextUserId store.users, u⟩,
        { store with users := store.users ++ [⟨nextUserId store.users, u, hash p, "user"⟩] },
        ⟨200, .obj [("status", .str "success"),
          ("user", userJson ⟨nextUserId store.users, u, hash p, "user"⟩)]⟩) := by
  rw [register]
  simp only [falsy, hu, hp, Bool.or_self, Bool.false_eq_true, if_false, Option.getD_some]
  have hop : registerOp hash u p store =
      .ok ({ store with users := store.users ++ [⟨nextUserId store.users, u, hash p, "user"⟩] },
        (⟨nextUserId store.users, u, hash p, "user"⟩ : UserRow)) := by
    rw [registerOp, usersInsert, if_neg (by rw [hfresh]; simp)]
    simp only [bind, Except.bind]
    rw [usersFind_append store.users u _ hfresh rfl]
  rw [withDb, hop]

theorem register_duplicate (hash : String → String) (sess0 : Option Session) (store : Store)
    (u p : String) (hu : u.isEmpty = false) (hp : p.isEmpty = false)
    (hpresent : store.users.any (fun r => r.username == u) = true) :
    register hash sess0 store (some u) (some p) =
      (sess0, store, ⟨400, jerr "Username already exists"⟩) := by
  rw [register]
  simp only [falsy, hu, hp, Bool.or_self, Bool.false_eq_true, if_false, Option.getD_some]
  have hop : registerOp hash u p store =
      .error (.uniqueViolation "UNIQUE constraint failed: users.username") := by
    rw [registerOp, usersInsert, if_pos hpresent]
    rfl
  rw [withDb, hop]
  simp only [if_pos (show isDuplicateError
    (.uniqueViolation "UNIQUE constraint failed: users.username") = true by decide)]

/-- C3 (amended): after a successful `register(u, p1)`, a second
`register(u, p2)` with a non-empty p2 fails with the duplicate-username error
(HTTP 400, normalized from the backend uniqueness-violation message), and the
first user's stored row (id, username, password_hash, role) is unchanged: the
state and session returned by the failed attempt are exactly those produced by
the first registration. -/
theorem duplicate_username_second_register (hash : String → String) (sess0 : Option Session)
    (store : Store) (u p1 p2 : String)
    (hu : u.isEmpty = false) (hp1 : p1.isEmpty = false) (hp2 : p2.isEmpty = false)
    (hfresh : store.users.any (fun r => r.username == u) = false) :
    ∃ sess1 store1 resp1,
      register hash sess0 store (some u) (some p1) = (sess1, store1, resp1) ∧
      resp1.status = 200 ∧
      usersFindByUsername store1.users u =
        some ⟨nextUserId store.users, u, hash p1, "user"⟩ ∧
      register hash sess1 store1 (some u) (some p2) =
        (sess1, store1, ⟨400, jerr "Username already exists"⟩) := by
  rw [register_fresh hash sess0 store u p1 hu hp1 hfresh]
  refine ⟨_, _, _, rfl, rfl, ?_, ?_⟩
  · exact usersFind_append store.users u _ hfresh rfl
  · apply register_duplicate hash _ _ u p2 hu hp2
    rw [List.any_append]
    simp

/-- C4: login with a wrong password for an existing user and login with a
nonexistent username produce exactly equal results: the same session, the same
state, and the identical 401 `Invalid username or password` response, so the
login result admits no username enumeration. -/
theorem login_indistinguishable (check : String → String → Bool) (sess0 : Option Session)
    (store : Store) (u1 p1 u2 p2 : String) (user : UserRow)
    (h1 : usersFindByUsername store.users u1 = some user)
    (h2 : check user.password_hash p1 = false)
    (h3 : usersFindByUsername store.users u2 = none) :
    login check sess0 store (some u1) (some p1) = login check sess0 store (some u2) (some p2) ∧
    login check sess0 store (some u1) (some p1) =
      (sess0, store, ⟨401, jerr "Invalid username or password"⟩) := by
  have happly : login check sess0 store (some u1) (some p1) =
      (sess0, store, ⟨401, jerr "Invalid username or password"⟩) := by
    rw [login.eq_def]
    simp only [h1, h2, Bool.false_eq_true, if_false]
  have happly2 : login check sess0 store (some u2) (some p2) =
      (sess0, store, ⟨401, jerr "Invalid username or password"⟩) := by
    rw [login.eq_def]
    simp only [h3]
  exact ⟨happly.trans happly2.symm, happly⟩

/-- C5: for every non-empty username and password with the username not yet
registered, `register` succeeds and a subsequent `login` with the same
credentials succeeds and resolves to the same user id, under the hypothesis
that password verification accepts the hash produced at registration. -/
theorem register_then_login (hash : String → String) (check : String → String → Bool)
    (sess0 : Option Session) (store : Store) (u p : String)
    (hu : u.isEmpty = false) (hp : p.isEmpty = false)
    (hfresh : store.users.any (fun r => r.username == u) = false)
    (hck : check (hash p) p = true) :
    ∃ sess1 store1 resp1 sess2 resp2,
      register hash sess0 store (some u) (some p) = (some sess1, store1, resp1) ∧
      resp1.status = 200 ∧
      login check sess0 store1 (some u) (some p) = (some sess2, store1, resp2) ∧
      resp2.status = 200 ∧
      sess1.user_id = sess2.user_id := by
  refine ⟨⟨nextUserId store.users, u⟩,
    { store with users := store.users ++ [⟨nextUserId store.users, u, hash p, "user"⟩] },
    ⟨200, .obj [("status", .str "success"),
      ("user", userJson ⟨nextUserId store.users, u, hash p, "user"⟩)]⟩,
    ⟨nextUserId store.users, u⟩,
    ⟨200, .obj [("status", .str "success"),
      ("user", userJson ⟨nextUserId store.users, u, hash p, "user"⟩)]⟩,
    register_fresh hash sess0 store u p hu hp hfresh, rfl, ?_, rfl, rfl⟩
  rw [login.eq_def]
  simp only [usersFind_append store.users u
    ⟨nextUserId store.users, u, hash p, "user"⟩ hfresh rfl, hck, if_true]

/-- C6: every storage or chat endpoint invoked with no valid session returns
the 401 `Authentication required` failure, and neither the users table, the
storage table, nor the session state is modified by the call. -/
theorem guard_unauthenticated (store : Store) (key : String) (reqKey : Option String)
    (reqVal : JVal) (apiKey : Option String)
    (callModel : String → String → Except PyErr String) (sc msg : String) :
    get_data_route key none store = (none, store, ⟨401, jerr "Authentication required"⟩) ∧
    set_data_route reqKey reqVal none store =
      (none, store, ⟨401, jerr "Authentication required"⟩) ∧
    remove_data_route key none store = (none, store, ⟨401, jerr "Authentication required"⟩) ∧
    chat_route apiKey callModel sc msg none store =
      (none, store, ⟨401, jerr "Authentication required"⟩) :=
  ⟨rfl, rfl, rfl, rfl⟩

/-! C7 support: storage scoping by user id -/

theorem beq_A_false_of_B (r : StorageRow) (A B : Nat) (hAB : A ≠ B)
    (hB : (r.user_id == B) = true) : (r.user_id == A && r.key == k) = false := by
  rw [beq_iff_eq] at hB
  have : (r.user_id == A) = false := by
    rw [beq_eq_false_iff_ne, hB]
    exact fun h => hAB h.symm
  rw [this, Bool.false_and]

theorem filterB_upsert (st : List StorageRow) (A B : Nat) (k txt : String) (hAB : A ≠ B) :
    (storageUpsert st A k txt).filter (fun r => r.user_id == B) =
      st.filter (fun r => r.user_id == B) := by
  rw [storageUpsert]
  split
  · next hany =>
      clear hany
      induction st with
      | nil => rfl
      | cons r rs ih =>
          rw [List.map_cons]
          by_cases hr : (r.user_id == A && r.key == k) = true
          · have hBf : (r.user_id == B) = false := by
              by_cases hB : (r.user_id == B) = true
              · rw [beq_A_false_of_B r A B hAB hB] at hr
                exact absurd hr (by simp)
              · rwa [Bool.not_eq_true] at hB
            rw [List.filter_cons, List.filter_cons]
            simp only [hr, if_true, hBf, Bool.false_eq_true, if_false]
            exact ih
          · rw [if_neg hr, List.filter_cons, List.filter_cons, ih]
  · next hany =>
      rw [List.filter_append, List.filter_cons]
      have hf : (((⟨A, k, txt⟩ : StorageRow).user_id == B)) = false := by
        simp only [beq_eq_false_iff_ne, ne_eq]
        exact hAB
      rw [hf]
      simp

theorem filterB_delete (st : List StorageRow) (A B : Nat) (k : String) (hAB : A ≠ B) :
    (storageDelete st A k).filter (fun r => r.user_id == B) =
      st.filter (fun r => r.user_id == B) := by
  rw [storageDelete, List.filter_filter]
  apply List.filter_congr
  intro r _
  by_cases hB : (r.user_id == B) = true
  · rw [hB, beq_A_false_of_B r A B hAB hB]
    rfl
  · rw [Bool.not_eq_true] at hB
    rw [hB]
    rfl

theorem find?_filterB (st : List StorageRow) (A B : Nat) (k : String) (hAB : A ≠ B) :
    (st.filter (fun r => !(r.user_id == B))).find? (fun r => r.user_id == A && r.key == k) =
      st.find? (fun r => r.user_id == A && r.key == k) := by
  induction st with
  | nil => rfl
  | cons r rs ih =>
      rw [List.filter_cons, List.find?_cons]
      by_cases hB : (r.user_id == B) = true
      · rw [hB]
        simp only [Bool.not_true, Bool.false_eq_true, if_false]
        rw [beq_A_false_of_B r A B hAB hB]
        simp only [Bool.false_eq_true, if_false]
        exact ih
      · rw [Bool.not_eq_true] at hB
        rw [hB]
        simp only [Bool.not_false, if_true]
        rw [List.find?_cons]
        by_cases hp : (r.user_id == A && r.key == k) = true
        · rw [hp]
        · rw [Bool.not_eq_true] at hp
          rw [hp]
          simp only [Bool.false_eq_true, if_false]
          exact ih

/-- C7: for distinct users A and B sharing the same key string, `set` and
`delete` under A's session leave every storage row of B unchanged, and `get`
under A's session returns the same response whether or not B's rows are
present, so B's entries are invisible to A's reads. -/
theorem cross_user_isolation (A B : Nat) (hAB : A ≠ B) (uname k : String) (v : JVal)
    (store : Store) :
    (((set_data_route (some k) v (some ⟨A, uname⟩) store).2.1).storage.filter
        (fun r => r.user_id == B) = store.storage.filter (fun r => r.user_id == B)) ∧
    (((remove_data_route k (some ⟨A, uname⟩) store).2.1).storage.filter
        (fun r => r.user_id == B) = store.storage.filter (fun r => r.user_id == B)) ∧
    ((get_data_route k (some ⟨A, uname⟩)
        { store with storage := store.storage.filter (fun r => !(r.user_id == B)) }).2.2 =
      (get_data_route k (some ⟨A, uname⟩) store).2.2) := by
  refine ⟨?_, ?_, ?_⟩
  · rw [set_data_route, login_required]
    simp only [set_data, withDb]
    exact filterB_upsert store.storage A B k (dumps v) hAB
  · rw [remove_data_route, login_required]
    simp only [remove_data, withDb]
    exact filterB_delete store.storage A B k hAB
  · simp only [get_data_route, login_required, get_data, withDb, storageFind]
    rw [find?_filterB store.storage A B k hAB]
    generalize List.find? (fun r => r.user_id == A && r.key == k) store.storage = res
    cases res with
    | none => rfl
    | some row =>
        simp only []
        generalize loads row.value = lv
        cases lv with
        | none => rfl
        | some v2 => rfl

/-! C8: scoped acquisition -/

/-- C8: for every scoped database acquisition, the connection is closed when
the scope returns; if the enclosed operation completes normally its result
state is committed; if it raises, the transaction is rolled back and the
committed state is unchanged. -/
theorem db_scope_spec {α : Type} (s : Store) (op : Store → Except PyErr (Store × α)) :
    (withDb s op).1.closed = true ∧
    (∀ s2 a, op s = .ok (s2, a) → (withDb s op).1.committed = s2 ∧ (withDb s op).2 = .ok a) ∧
    (∀ e, op s = .error e → (withDb s op).1.committed = s ∧ (withDb s op).2 = .error e) := by
  rcases hop : op s with e | ⟨s2, a⟩
  · rw [withDb, hop]
    refine ⟨rfl, ?_, ?_⟩
    · intro s2 a h
      exact Except.noConfusion h
    · intro e2 h
      injection h with he
      subst he
      exact ⟨rfl, rfl⟩
  · rw [withDb, hop]
    refine ⟨rfl, ?_, ?_⟩
    · intro s3 a3 h
      injection h with hpair
      injection hpair with h1 h2
      subst h1
      subst h2
      exact ⟨rfl, rfl⟩
    · intro e2 h
      exact Except.noConfusion h

theorem joinPS_cons2 (c : Char) (s : List Char) (ss : List (List Char)) :
    joinPS ((c :: s) :: ss) = c :: joinPS (s :: ss) := by
  cases ss with
  | nil => rfl
  | cons t ts => rfl

theorem splitOnQ_shape : ∀ l : List Char, ∃ s ss, splitOnQ l = s :: ss := by
  intro l
  cases l with
  | nil => exact ⟨[], [], rfl⟩
  | cons c r =>
      rw [splitOnQ]
      rcases h : splitOnQ r with _ | ⟨s, ss⟩
      · exact ⟨[c], [], rfl⟩
      · by_cases hc : c = '?'
        · exact ⟨[], s :: ss, by simp only []; rw [if_pos hc]⟩
        · exact ⟨c :: s, ss, by simp only []; rw [if_neg hc]⟩

theorem replace_join (l : List Char) :
    l.flatMap (fun c => if c = '?' then ['%', 's'] else [c]) = joinPS (splitOnQ l) := by
  induction l with
  | nil => rfl
  | cons c r ih =>
      rw [List.flatMap_cons, ih]
      rcases splitOnQ_shape r with ⟨s, ss, hss⟩
      rw [splitOnQ, hss]
      simp only []
      by_cases hc : c = '?'
      · rw [if_pos hc, if_pos hc]
        rfl
      · rw [if_neg hc, if_neg hc, joinPS_cons2]
        rfl

/-- C9: under the Postgres dialect `execute` rewrites exactly the positional
`?` placeholders to `%s` (the SQL text splits at the placeholders and the
segments are preserved verbatim); under the embedded dialect the SQL is
dispatched unmodified; and both failure and success of the dispatched
statement propagate to the caller unchanged. -/
theorem execute_rewrite_spec {α : Type} (sql : String) (run : String → Except PyErr α) :
    rewriteSql false sql = sql ∧
    (rewriteSql true sql).data = joinPS (splitOnQ sql.data) ∧
    (∀ (isPg : Bool) (e : PyErr),
      run (rewriteSql isPg sql) = .error e → dbExecute isPg sql run = .error e) ∧
    (∀ (isPg : Bool) (c : α),
      run (rewriteSql isPg sql) = .ok c → dbExecute isPg sql run = .ok c) := by
  refine ⟨rfl, ?_, fun _ _ h => h, fun _ _ h => h⟩
  rw [rewriteSql, if_pos rfl, pyReplace]
  exact replace_join sql.data

/-! C10: stored null vs absent key -/

/-- C10: `get(uid,k)` returns the same 200/null response after
`set(uid,k,null)` as it does when no entry exists for (uid,k): a stored JSON
null is indistinguishable from an absent key at the get interface. -/
theorem null_absent_indistinguishable (uid : Nat) (uname k : String) (store : Store)
    (habs : storageFind store.storage uid k = none) :
    (get_data_route k (some ⟨uid, uname⟩) store).2.2 = ⟨200, .null⟩ ∧
    ∃ store1, set_data_route (some k) .null (some ⟨uid, uname⟩) store =
        (some ⟨uid, uname⟩, store1, ⟨200, .obj [("status", .str "success")]⟩) ∧
      (get_data_route k (some ⟨uid, uname⟩) store1).2.2 = ⟨200, .null⟩ := by
  refine ⟨?_, ⟨{ store with storage := storageUpsert store.storage uid k (dumps .null) },
    ?_, ?_⟩⟩
  · simp only [get_data_route, login_required, get_data, withDb, habs]
  · rw [set_data_route, login_required]
    simp only [set_data, withDb]
  · simp only [get_data_route, login_required, get_data, withDb, storageFind_upsert,
      loads_dumps JVal.null rfl]

/-- C3 counterexample: with p2 the empty string, the second register for an
existing username returns the missing-fields validation error, not the
duplicate-username error, refuting the claim for arbitrary p2. -/
theorem second_register_empty_password :
    register (fun s => s) none ⟨[], []⟩ (some "alice") (some "pw") =
      (some ⟨1, "alice"⟩, ⟨[⟨1, "alice", "pw", "user"⟩], []⟩,
        ⟨200, .obj [("status", .str "success"),
          ("user", userJson ⟨1, "alice", "pw", "user"⟩)]⟩) ∧
    register (fun s => s) (some ⟨1, "alice"⟩) ⟨[⟨1, "alice", "pw", "user"⟩], []⟩
        (some "alice") (some "") =
      (some ⟨1, "alice"⟩, ⟨[⟨1, "alice", "pw", "user"⟩], []⟩,
        ⟨400, jerr "Username and password required"⟩) ∧
    jerr "Username and password required" ≠ jerr "Username already exists" := by
  refine ⟨rfl, rfl, ?_⟩
  simp [jerr]

/-! Witnesses -/

theorem set_then_get_roundtrip_witness :
    ∃ store1,
      set_data_route (some "budget") (.obj [("limit", .num 500)]) (some ⟨1, "alice"⟩)
          ⟨[], []⟩ =
        (some ⟨1, "alice"⟩, store1, ⟨200, .obj [("status", .str "success")]⟩) ∧
      get_data_route "budget" (some ⟨1, "alice"⟩) store1 =
        (some ⟨1, "alice"⟩, store1, ⟨200, .obj [("limit", .num 500)]⟩) :=
  set_then_get_roundtrip 1 "alice" "budget" (.obj [("limit", .num 500)]) ⟨[], []⟩ (by decide)

theorem last_write_wins_witness :
    ∃ store1 store2,
      set_data_route (some "budget") (.num 1) (some ⟨1, "alice"⟩) ⟨[], []⟩ =
        (some ⟨1, "alice"⟩, store1, ⟨200, .obj [("status", .str "success")]⟩) ∧
      set_data_route (some "budget") (.num 2) (some ⟨1, "alice"⟩) store1 =
        (some ⟨1, "alice"⟩, store2, ⟨200, .obj [("status", .str "success")]⟩) ∧
      storageUnique store1.storage ∧
      storageUnique store2.storage ∧
      (store2.storage.filter (fun r => r.user_id == 1 && r.key == "budget")).length = 1 ∧
      get_data_route "budget" (some ⟨1, "alice"⟩) store2 =
        (some ⟨1, "alice"⟩, store2, ⟨200, .num 2⟩) ∧
      (∀ k2, storageUnique
        ((remove_data_route k2 (some ⟨1, "alice"⟩) store2).2.1).storage) :=
  last_write_wins 1 "alice" "budget" (.num 1) (.num 2) ⟨[], []⟩ (by decide)
    (List.Pairwise.nil)

theorem duplicate_username_second_register_witness :
    ∃ sess1 store1 resp1,
      register (fun s => s) none ⟨[], []⟩ (some "alice") (some "pw1") =
        (sess1, store1, resp1) ∧
      resp1.status = 200 ∧
      usersFindByUsername store1.users "alice" = some ⟨1, "alice", "pw1", "user"⟩ ∧
      register (fun s => s) sess1 store1 (some "alice") (some "pw2") =
        (sess1, store1, ⟨400, jerr "Username already exists"⟩) :=
  duplicate_username_second_register (fun s => s) none ⟨[], []⟩ "alice" "pw1" "pw2"
    (by decide) (by decide) (by decide) (by decide)

theorem login_indistinguishable_witness :
    login (fun h p => h == p) none ⟨[⟨1, "alice", "hpw", "user"⟩], []⟩
        (some "alice") (some "wrong") =
      login (fun h p => h == p) none ⟨[⟨1, "alice", "hpw", "user"⟩], []⟩
        (some "bob") (some "whatever") ∧
    login (fun h p => h == p) none ⟨[⟨1, "alice", "hpw", "user"⟩], []⟩
        (some "alice") (some "wrong") =
      (none, ⟨[⟨1, "alice", "hpw", "user"⟩], []⟩,
        ⟨401, jerr "Invalid username or password"⟩) :=
  login_indistinguishable (fun h p => h == p) none ⟨[⟨1, "alice", "hpw", "user"⟩], []⟩
    "alice" "wrong" "bob" "whatever" ⟨1, "alice", "hpw", "user"⟩ (by decide) (by decide)
    (by decide)

theorem register_then_login_witness :
    ∃ sess1 store1 resp1 sess2 resp2,
      register (fun p => p) none ⟨[], []⟩ (some "alice") (some "pw") =
        (some sess1, store1, resp1) ∧
      resp1.status = 200 ∧
      login (fun h p => h == p) none store1 (some "alice") (some "pw") =
        (some sess2, store1, resp2) ∧
      resp2.status = 200 ∧
      sess1.user_id = sess2.user_id :=
  register_then_login (fun p => p) (fun h p => h == p) none ⟨[], []⟩ "alice" "pw"
    (by decide) (by decide) (by decide) (by decide)

theorem cross_user_isolation_witness :
    (((set_data_route (some "k") (.num 7) (some ⟨1, "alice"⟩)
        ⟨[], [⟨2, "k", "9"⟩]⟩).2.1).storage.filter (fun r => r.user_id == 2) =
      ([⟨2, "k", "9"⟩] : List StorageRow).filter (fun r => r.user_id == 2)) ∧
    (((remove_data_route "k" (some ⟨1, "alice"⟩)
        ⟨[], [⟨2, "k", "9"⟩]⟩).2.1).storage.filter (fun r => r.user_id == 2) =
      ([⟨2, "k", "9"⟩] : List StorageRow).filter (fun r => r.user_id == 2)) ∧
    ((get_data_route "k" (some ⟨1, "alice"⟩)
        { users := [], storage := ([⟨2, "k", "9"⟩] : List StorageRow).filter
            (fun r => !(r.user_id == 2)) }).2.2 =
      (get_data_route "k" (some ⟨1, "alice"⟩) ⟨[], [⟨2, "k", "9"⟩]⟩).2.2) :=
  cross_user_isolation 1 2 (by decide) "alice" "k" (.num 7) ⟨[], [⟨2, "k", "9"⟩]⟩

theorem db_scope_spec_witness :
    (withDb (⟨[], []⟩ : Store) (fun s => .ok (s, (42 : Nat)))).1.closed = true :=
  (db_scope_spec ⟨[], []⟩ (fun s => .ok (s, 42))).1

theorem execute_rewrite_spec_witness :
    rewriteSql false "SELECT value FROM storage_new WHERE user_id = ? AND key = ?" =
      "SELECT value FROM storage_new WHERE user_id = ? AND key = ?" ∧
    (rewriteSql true "SELECT value FROM storage_new WHERE user_id = ? AND key = ?").data =
      joinPS (splitOnQ
        "SELECT value FROM storage_new WHERE user_id = ? AND key = ?".data) :=
  ⟨(execute_rewrite_spec "SELECT value FROM storage_new WHERE user_id = ? AND key = ?"
      (fun _ => (.ok 0 : Except PyErr Nat))).1,
    (execute_rewrite_spec "SELECT value FROM storage_new WHERE user_id = ? AND key = ?"
      (fun _ => (.ok 0 : Except PyErr Nat))).2.1⟩

theorem null_absent_indistinguishable_witness :
    (get_data_route "k" (some ⟨1, "alice"⟩) ⟨[], []⟩).2.2 = ⟨200, .null⟩ ∧
    ∃ store1, set_data_route (some "k") .null (some ⟨1, "alice"⟩) ⟨[], []⟩ =
        (some ⟨1, "alice"⟩, store1, ⟨200, .obj [("status", .str "success")]⟩) ∧
      (get_data_route "k" (some ⟨1, "alice"⟩) store1).2.2 = ⟨200, .null⟩ :=
  null_absent_indistinguishable 1 "alice" "k" ⟨[], []⟩ rfl
